import Mathlib

/-!
Verification development for the storage facade layer of
`mindsdb/interfaces/storage/model_fs.py`: the `ModelStorage` and
`HandlerStorage` classes.

The Python code is shallowly embedded:
* Python `dict` values become association lists (`List (k × v)`) with
  unique keys, together with `dictGet` / `dictSet` / `dictUpdate`
  implementing lookup, item assignment and `dict.update` with Python's
  insertion-order semantics.
* Database records (`db.Predictor`, `db.Integration`) become structures;
  a record that may be absent is an `Option`; methods that can raise
  return `Except String`.
* The local folder of a `HandlerStorage` becomes a list of entries
  (files and directories) for `is_empty`, and a flat list of
  `(relative path, content)` files for the archive export/import walk.
* The name normalization in `__convert_name` / `folder_get` /
  `folder_sync` (`name.lower().replace(' ', '_')` followed by
  `re.sub(r'([^a-z^A-Z^_\d]+)', '_', name)`) is embedded character by
  character.  Note that inside the regex character class the second and
  third `^` are literal characters, so `'^'` (codepoint 94) is a kept
  character.  Two external Python primitives appear in this pipeline and
  are parameters of the embedding, like `SERVICE_FILES_NAMES`:
  `str.lower()` (a Unicode-wide, possibly length-changing and
  context-sensitive case map, modelled as an arbitrary function `low` on
  character lists) and the regex class `\d` (all Unicode decimal digits,
  modelled as an arbitrary predicate `isDigit`).  Theorems about the
  normalization hold for every `low`/`isDigit` satisfying explicitly
  stated properties that are documented facts of the Unicode Character
  Database.  `convert_name` is the executable ASCII instantiation
  (`asciiLow`/`asciiDigit`); on inputs whose characters are ASCII it
  agrees with Python exactly, and it is the function applied in the
  folder-operation models and concrete counterexamples.
-/

namespace ModelFS

/-! ## Python dict as an association list -/

/-- Lookup of a key in an association list: first binding wins,
mirroring a Python dict where keys are unique. -/
def dictGet {α β : Type} [DecidableEq α] : List (α × β) → α → Option β
  | [], _ => Option.none
  | p :: rest, k => if p.1 = k then Option.some p.2 else dictGet rest k

/-- Python `d[k] = v` on an insertion-ordered dict with unique keys:
replace the binding in place if the key is present, else append. -/
def dictSet {α β : Type} [DecidableEq α] : List (α × β) → α → β → List (α × β)
  | [], k, v => [(k, v)]
  | p :: rest, k, v => if p.1 = k then (k, v) :: rest else p :: dictSet rest k v

/-- Python `d.update(patch)`: assign every binding of `patch` in order. -/
def dictUpdate {α β : Type} [DecidableEq α] (d patch : List (α × β)) : List (α × β) :=
  patch.foldl (fun acc p => dictSet acc p.1 p.2) d

/-! ## Name normalization (`HandlerStorage.__convert_name`, also inlined
in `ModelStorage.folder_get` / `folder_sync`) -/

/-- ASCII `str.lower()`: map codepoints 65..90 to 97..122. -/
def pyLower (c : Char) : Char :=
  if 65 ≤ c.toNat ∧ c.toNat ≤ 90 then Char.ofNat (c.toNat + 32) else c

/-- `str.replace(' ', '_')` on one character. -/
def spaceRepl (c : Char) : Char :=
  if c.toNat = 32 then '_' else c

/-- Characters NOT matched by the regex `[^a-z^A-Z^_\d]`: ASCII letters,
digits, underscore — and `'^'` (94), because the inner carets of the
character class are literal. -/
def keptChar (c : Char) : Bool :=
  decide (97 ≤ c.toNat ∧ c.toNat ≤ 122) || decide (65 ≤ c.toNat ∧ c.toNat ≤ 90) ||
  decide (c.toNat = 95) || decide (48 ≤ c.toNat ∧ c.toNat ≤ 57) || decide (c.toNat = 94)

/-- Characters kept by the class `[a-zA-Z0-9_]` that the specification
describes (no `'^'`). -/
def specKeptChar (c : Char) : Bool :=
  decide (97 ≤ c.toNat ∧ c.toNat ≤ 122) || decide (65 ≤ c.toNat ∧ c.toNat ≤ 90) ||
  decide (c.toNat = 95) || decide (48 ≤ c.toNat ∧ c.toNat ≤ 57)

/-- Characters the specification allows in a normalized name:
`[a-z0-9_]`. -/
def specOutChar (c : Char) : Bool :=
  decide (97 ≤ c.toNat ∧ c.toNat ≤ 122) || decide (c.toNat = 95) ||
  decide (48 ≤ c.toNat ∧ c.toNat ≤ 57)

/-- `re.sub(r'(CLASS+)', '_', s)` for a character class given by `kept`:
each maximal run of non-kept characters becomes a single `'_'`.  The
Boolean argument records whether the previous character was inside such
a run. -/
def collapseRuns (kept : Char → Bool) : List Char → Bool → List Char
  | [], _ => []
  | c :: rest, inRun =>
    if kept c then c :: collapseRuns kept rest false
    else if inRun then collapseRuns kept rest true
    else '_' :: collapseRuns kept rest true

/-- `HandlerStorage.__convert_name` (and the identical inline code in
`folder_get` / `folder_sync`): lowercase, replace `' '` by `'_'`, then
collapse every run matched by `[^a-z^A-Z^_\d]+` to a single `'_'`. -/
def convert_name (s : String) : String :=
  ⟨collapseRuns keptChar ((s.data.map pyLower).map spaceRepl) false⟩

/-- The normalization the specification describes, differing from
`convert_name` only in the character class: runs outside `[a-zA-Z0-9_]`
collapse, so `'^'` is not kept. -/
def spec_normalize (s : String) : String :=
  ⟨collapseRuns specKeptChar ((s.data.map pyLower).map spaceRepl) false⟩

/-- Characters NOT matched by the regex `[^a-z^A-Z^_\d]` with the
Unicode-wide `\d` class as a parameter: ASCII letters, underscore,
the literal `'^'`, and whatever `isDigit` matches. -/
def keptCharU (isDigit : Char → Bool) (c : Char) : Bool :=
  decide (97 ≤ c.toNat ∧ c.toNat ≤ 122) || decide (65 ≤ c.toNat ∧ c.toNat ≤ 90) ||
  decide (c.toNat = 95) || isDigit c || decide (c.toNat = 94)

/-- `HandlerStorage.__convert_name` with the two external Python
primitives as parameters: `low` models the Unicode-wide `str.lower()`
as a whole-string map on character lists (so it may change length and
be context-sensitive), `isDigit` models the regex `\d` class. -/
def convert_nameU (low : List Char → List Char) (isDigit : Char → Bool) (s : String) :
    String :=
  ⟨collapseRuns (keptCharU isDigit) ((low s.data).map spaceRepl) false⟩

/-- The ASCII fragment of `str.lower()`; it agrees with Python on
inputs whose characters are ASCII. -/
def asciiLow (l : List Char) : List Char := l.map pyLower

/-- The ASCII fragment of the regex `\d` class. -/
def asciiDigit (c : Char) : Bool := decide (48 ≤ c.toNat ∧ c.toNat ≤ 57)

/-! ### Lemmas about the normalization pipeline -/

lemma toNat_ofNat_add32 (n : Nat) (h1 : 65 ≤ n) (h2 : n ≤ 90) :
    (Char.ofNat (n + 32)).toNat = n + 32 := by
  interval_cases n <;> decide

lemma pyLower_toNat (c : Char) :
    (pyLower c).toNat = if 65 ≤ c.toNat ∧ c.toNat ≤ 90 then c.toNat + 32 else c.toNat := by
  simp only [pyLower]
  by_cases h : 65 ≤ c.toNat ∧ c.toNat ≤ 90
  · rw [if_pos h, if_pos h]
    exact toNat_ofNat_add32 c.toNat h.1 h.2
  · rw [if_neg h, if_neg h]

lemma spaceRepl_toNat (c : Char) :
    (spaceRepl c).toNat = if c.toNat = 32 then 95 else c.toNat := by
  simp only [spaceRepl]
  by_cases h : c.toNat = 32
  · rw [if_pos h, if_pos h]; decide
  · rw [if_neg h, if_neg h]

/-- A character whose codepoint is not 32 is a fixed point of
`replace(' ', '_')`. -/
lemma spaceRepl_fix (c : Char) (h : c.toNat ≠ 32) : spaceRepl c = c := by
  simp only [spaceRepl]
  rw [if_neg h]

lemma map_id_of_fix {f : Char → Char} (l : List Char) :
    (∀ c ∈ l, f c = c) → l.map f = l := by
  induction l with
  | nil => intro _; rfl
  | cons d rest ih =>
    intro h
    simp only [List.map_cons, h d (List.mem_cons_self _ _),
      ih (fun c hc => h c (List.mem_cons_of_mem _ hc))]

lemma mem_collapseRuns {kept : Char → Bool} (l : List Char) : ∀ (b : Bool) (c : Char),
    c ∈ collapseRuns kept l b → c = '_' ∨ (kept c = true ∧ c ∈ l) := by
  induction l with
  | nil => intro b c hc; simp [collapseRuns] at hc
  | cons d rest ih =>
    intro b c hc
    simp only [collapseRuns] at hc
    by_cases hk : kept d = true
    · rw [if_pos hk] at hc
      rcases List.mem_cons.mp hc with h | h
      · right; rw [h]; exact ⟨hk, List.mem_cons_self d rest⟩
      · rcases ih false c h with h' | ⟨ha, hb⟩
        · left; exact h'
        · right; exact ⟨ha, List.mem_cons_of_mem d hb⟩
    · rw [if_neg hk] at hc
      cases b with
      | true =>
        rw [if_pos rfl] at hc
        rcases ih true c hc with h' | ⟨ha, hb⟩
        · left; exact h'
        · right; exact ⟨ha, List.mem_cons_of_mem d hb⟩
      | false =>
        rw [if_neg (by simp)] at hc
        rcases List.mem_cons.mp hc with h | h
        · left; exact h
        · rcases ih true c h with h' | ⟨ha, hb⟩
          · left; exact h'
          · right; exact ⟨ha, List.mem_cons_of_mem d hb⟩

lemma collapseRuns_id {kept : Char → Bool} (l : List Char) (h : ∀ c ∈ l, kept c = true) :
    collapseRuns kept l false = l := by
  induction l with
  | nil => rfl
  | cons d rest ih =>
    have hd : kept d = true := h d (List.mem_cons_self d rest)
    simp only [collapseRuns, if_pos hd]
    rw [ih (fun c hc => h c (List.mem_cons_of_mem d hc))]

/-- Classification of the output characters of the normalization, for
every lowercasing `low` that never produces an ASCII uppercase letter
(a documented fact of the Unicode case mapping): each output character
is kept by the regex class, is not an ASCII uppercase letter, and is
not a space.  With the real `\d`, that is exactly: lowercase ASCII
letters, Unicode decimal digits, `'_'` and `'^'`. -/
lemma convert_nameU_chars (low : List Char → List Char) (isDigit : Char → Bool)
    (hnu : ∀ (l : List Char) (c : Char), c ∈ low l → ¬(65 ≤ c.toNat ∧ c.toNat ≤ 90))
    (s : String) :
    ∀ c ∈ (convert_nameU low isDigit s).data,
      keptCharU isDigit c = true ∧ ¬(65 ≤ c.toNat ∧ c.toNat ≤ 90) ∧ c.toNat ≠ 32 := by
  intro c hc
  rcases mem_collapseRuns _ _ c hc with h | ⟨h1, h2⟩
  · subst h
    refine ⟨?_, by decide, by decide⟩
    cases hdig : isDigit '_' <;> simp only [keptCharU, hdig] <;> decide
  · rcases List.mem_map.mp h2 with ⟨b, hb, hbc⟩
    have hb' := hnu s.data b hb
    have hsr := spaceRepl_toNat b
    subst hbc
    refine ⟨h1, ?_, ?_⟩
    · split_ifs at hsr <;> omega
    · split_ifs at hsr <;> omega

/-- The ASCII instantiation never produces an ASCII uppercase letter. -/
lemma asciiLow_no_upper (l : List Char) (c : Char) (hc : c ∈ asciiLow l) :
    ¬(65 ≤ c.toNat ∧ c.toNat ≤ 90) := by
  simp only [asciiLow] at hc
  rcases List.mem_map.mp hc with ⟨a, _, ha⟩
  have h := pyLower_toNat a
  subst ha
  split_ifs at h <;> omega

/-- The ASCII instantiation is the identity on strings of kept
non-uppercase characters. -/
lemma asciiLow_fix (l : List Char)
    (h : ∀ c ∈ l, keptCharU asciiDigit c = true ∧ ¬(65 ≤ c.toNat ∧ c.toNat ≤ 90)) :
    asciiLow l = l := by
  show l.map pyLower = l
  refine map_id_of_fix l (fun c hc => ?_)
  simp only [pyLower]
  rw [if_neg (h c hc).2]

/-! ### C4 / C5: the normalization claims -/

/-- C4 (counterexample): the claimed rule — lowercase, whitespace to
`'_'`, collapse every run outside `[a-zA-Z0-9_]` to one `'_'`, output
confined to `[a-z0-9_]` — fails on the code at two ASCII inputs, where
the executable instantiation agrees with Python exactly.  `'^'` is kept,
not collapsed (the inner carets of the class `[^a-z^A-Z^_\d]` are
literal): `normalize("a^b") = "a^b"`, containing a character outside
`[a-z0-9_]`, while the claimed class gives `"a_b"`.  And a tab is not
mapped to `'_'` individually — only `' '` is — but collapsed as part of
a run: `normalize("a\t\tb") = "a_b"`, not `"a__b"`. -/
theorem convert_name_caret_counterexample :
    convert_name "a^b" = "a^b" ∧ spec_normalize "a^b" = "a_b" ∧
    convert_name "a^b" ≠ spec_normalize "a^b" ∧
    '^' ∈ (convert_name "a^b").data ∧ specOutChar '^' = false ∧
    convert_name "a\t\tb" = "a_b" ∧ convert_name "a\t\tb" ≠ "a__b" ∧
    convert_nameU asciiLow asciiDigit "a^b" = convert_name "a^b" :=
  ⟨by decide, by decide, by decide, by decide, by decide, by decide, by decide, rfl⟩

/-- C4 (amended): the normalization applies Python's `lower()`, maps
only the space character individually to `'_'`, and collapses every
maximal run of characters outside the kept class — `[a-zA-Z0-9_]`, the
literal `'^'`, and every character matched by the Unicode-wide `\d` —
to a single `'_'`.  For every lowercasing that never produces an ASCII
uppercase letter (true of the Unicode case mapping), every output
character is kept and non-uppercase: lowercase ASCII letters, digits,
`'_'` and `'^'`.  On ASCII input the executable instantiation agrees
with Python and the spec's example still holds:
`normalize("My Folder!!1") = "my_folder_1"`. -/
theorem convert_name_amended (low : List Char → List Char) (isDigit : Char → Bool)
    (hnu : ∀ (l : List Char) (c : Char), c ∈ low l → ¬(65 ≤ c.toNat ∧ c.toNat ≤ 90))
    (s : String) :
    (∀ c ∈ (convert_nameU low isDigit s).data,
      keptCharU isDigit c = true ∧ ¬(65 ≤ c.toNat ∧ c.toNat ≤ 90)) ∧
    convert_nameU asciiLow asciiDigit "My Folder!!1" = "my_folder_1" ∧
    convert_nameU asciiLow asciiDigit "My Folder!!1" = convert_name "My Folder!!1" :=
  ⟨fun c hc => ⟨(convert_nameU_chars low isDigit hnu s c hc).1,
    (convert_nameU_chars low isDigit hnu s c hc).2.1⟩, by decide, rfl⟩

/-- Witness for C4 (amended): the ASCII instantiation satisfies the
lowercasing hypothesis; applied at `s = "A b"` and its output character
`'a'`. -/
theorem convert_name_amended_witness :
    (keptCharU asciiDigit 'a' = true ∧ ¬(65 ≤ 'a'.toNat ∧ 'a'.toNat ≤ 90)) ∧
    convert_nameU asciiLow asciiDigit "My Folder!!1" = "my_folder_1" :=
  ⟨(convert_name_amended asciiLow asciiDigit asciiLow_no_upper "A b").1 'a' (by decide),
   (convert_name_amended asciiLow asciiDigit asciiLow_no_upper "A b").2.1⟩

/-- C5: `__convert_name` is idempotent on every string, for every model
`low` of `str.lower()` and `isDigit` of `\d` such that (i) lowercasing
is the identity on strings whose characters are kept and not ASCII
uppercase, and (ii) lowercasing never produces an ASCII uppercase
letter.  Both are documented facts of the Unicode Character Database:
lowercase letters, digits, `'_'` and `'^'` have no lowercase mappings
and trigger no context-sensitive rule, and no character lowercases to
an uppercase ASCII letter. -/
theorem convert_nameU_idempotent (low : List Char → List Char) (isDigit : Char → Bool)
    (hfix : ∀ l : List Char,
      (∀ c ∈ l, keptCharU isDigit c = true ∧ ¬(65 ≤ c.toNat ∧ c.toNat ≤ 90)) → low l = l)
    (hnu : ∀ (l : List Char) (c : Char), c ∈ low l → ¬(65 ≤ c.toNat ∧ c.toNat ≤ 90))
    (s : String) :
    convert_nameU low isDigit (convert_nameU low isDigit s) = convert_nameU low isDigit s := by
  have hchars := convert_nameU_chars low isDigit hnu s
  show (⟨collapseRuns (keptCharU isDigit)
      ((low (convert_nameU low isDigit s).data).map spaceRepl) false⟩ : String) =
    convert_nameU low isDigit s
  rw [hfix (convert_nameU low isDigit s).data
      (fun c hc => ⟨(hchars c hc).1, (hchars c hc).2.1⟩)]
  rw [map_id_of_fix _ (fun c hc => spaceRepl_fix c (hchars c hc).2.2)]
  rw [collapseRuns_id _ (fun c hc => (hchars c hc).1)]

/-- Witness for C5: the ASCII instantiation satisfies both lowercasing
hypotheses, applied at the concrete input `"My Folder!!1"`. -/
theorem convert_nameU_idempotent_witness :
    convert_nameU asciiLow asciiDigit (convert_nameU asciiLow asciiDigit "My Folder!!1") =
      convert_nameU asciiLow asciiDigit "My Folder!!1" :=
  convert_nameU_idempotent asciiLow asciiDigit asciiLow_fix asciiLow_no_upper "My Folder!!1"

/-! ## Record model -/

/-- A Python value stored in a record field: `None`, a dict (of the
string-to-int shape the testable laws use), or some other non-dict
value. -/
inductive PyVal where
  | pynone : PyVal
  | dict : List (String × Int) → PyVal
  | str : String → PyVal
deriving DecidableEq

/-- The columns of a `db.Predictor` row that the facade touches. -/
structure Predictor where
  status : String
  to_predict : String
  data : PyVal
  learn_args : PyVal
  dtype_dict : PyVal
  training_phase_current : Option Int
  training_phase_total : Option Int
  training_phase_name : Option String
deriving DecidableEq

/-- The columns of a `db.Integration` row that the facade touches. -/
structure Integration where
  name : String
  data : PyVal
deriving DecidableEq

/-- First-wins alternative on `Option`, used to state the merge law. -/
def optOr {β : Type} : Option β → Option β → Option β
  | Option.some v, _ => Option.some v
  | Option.none, b => b

/-! ## ModelStorage record methods

`db.Predictor.query.get(id)` is modelled by passing the looked-up row
(`Option Predictor`) directly; `db.session.commit()` by returning the
new row.  A raised Python exception becomes `Except.error`. -/

/-- `ModelStorage.update_data`: `_get_model_record(..., check_exists=True)`
(raising `KeyError` when the row is absent), then merge when the current
`data` field is a dict, else replace it by the patch outright. -/
def ModelStorage.update_data (rec : Option Predictor) (data : List (String × Int)) :
    Except String Predictor :=
  match rec with
  | Option.none => Except.error "Model does not exists"
  | Option.some r =>
    match r.data with
    | PyVal.dict d => Except.ok { r with data := PyVal.dict (dictUpdate d data) }
    | _ => Except.ok { r with data := PyVal.dict data }

/-- `ModelStorage.update_learn_args`: same shape as `update_data` on the
`learn_args` field. -/
def ModelStorage.update_learn_args (rec : Option Predictor) (data : List (String × Int)) :
    Except String Predictor :=
  match rec with
  | Option.none => Except.error "Model does not exists"
  | Option.some r =>
    match r.learn_args with
    | PyVal.dict d => Except.ok { r with learn_args := PyVal.dict (dictUpdate d data) }
    | _ => Except.ok { r with learn_args := PyVal.dict data }

/-- `ModelStorage.status_set`: set `status` unconditionally; when
`status_info` is given assign it to the whole `data` field (no merge).
A missing row fails with the attribute error of `None.status`. -/
def ModelStorage.status_set (rec : Option Predictor) (status : String)
    (status_info : Option PyVal) : Except String Predictor :=
  match rec with
  | Option.none => Except.error "AttributeError: NoneType has no attribute status"
  | Option.some r =>
    let r1 := { r with status := status }
    match status_info with
    | Option.some info => Except.ok { r1 with data := info }
    | Option.none => Except.ok r1

/-- `HandlerStorage.update_connection_args`: raise `KeyError` when the
integration row is absent, else replace the whole `data` field. -/
def HandlerStorage.update_connection_args (rec : Option Integration)
    (connection_args : List (String × Int)) : Except String Integration :=
  match rec with
  | Option.none => Except.error "Can't find integration"
  | Option.some r => Except.ok { r with data := PyVal.dict connection_args }

/-- `HandlerStorage.get_connection_args`: unchecked lookup, returns the
`data` field. -/
def HandlerStorage.get_connection_args (rec : Option Integration) : Except String PyVal :=
  match rec with
  | Option.none => Except.error "AttributeError: NoneType has no attribute data"
  | Option.some r => Except.ok r.data

/-! ### Dict lemmas -/

lemma dictGet_dictSet {α β : Type} [DecidableEq α] (d : List (α × β)) (k k' : α) (v : β) :
    dictGet (dictSet d k v) k' = if k = k' then Option.some v else dictGet d k' := by
  induction d with
  | nil => simp [dictSet, dictGet]
  | cons p rest ih =>
    simp only [dictSet]
    by_cases hp : p.1 = k
    · rw [if_pos hp]
      simp only [dictGet]
      by_cases hk : k = k'
      · rw [if_pos hk, if_pos hk]
      · rw [if_neg hk, if_neg hk, if_neg (fun h => hk (hp.symm.trans h))]
    · rw [if_neg hp]
      simp only [dictGet]
      by_cases hpk : p.1 = k'
      · have hne : ¬(k = k') := fun h => hp (hpk.trans h.symm)
        rw [if_pos hpk, if_pos hpk, if_neg hne]
      · rw [if_neg hpk, if_neg hpk, ih]

lemma dictGet_not_mem {α β : Type} [DecidableEq α] (l : List (α × β)) (k : α) :
    k ∉ l.map Prod.fst → dictGet l k = Option.none := by
  induction l with
  | nil => intro _; rfl
  | cons p rest ih =>
    intro h
    simp only [List.map_cons, List.mem_cons, not_or] at h
    have hp : ¬(p.1 = k) := fun he => h.1 he.symm
    simp only [dictGet]
    rw [if_neg hp]
    exact ih h.2

/-- The merge law for `dict.update` with an in-order patch of distinct
keys: the patch wins on its own keys, the original value survives
elsewhere. -/
lemma dictGet_dictUpdate {α β : Type} [DecidableEq α] (patch : List (α × β)) :
    ∀ (d : List (α × β)) (k : α), (patch.map Prod.fst).Nodup →
    dictGet (dictUpdate d patch) k = optOr (dictGet patch k) (dictGet d k) := by
  induction patch with
  | nil => intro d k _; simp [dictUpdate, dictGet, optOr]
  | cons p ps ih =>
    intro d k hnd
    simp only [List.map_cons, List.nodup_cons] at hnd
    have hstep : dictUpdate d (p :: ps) = dictUpdate (dictSet d p.1 p.2) ps := rfl
    rw [hstep, ih _ k hnd.2, dictGet_dictSet]
    by_cases hk : p.1 = k
    · rw [if_pos hk, dictGet_not_mem ps k (hk ▸ hnd.1)]
      simp only [dictGet, if_pos hk, optOr]
    · rw [if_neg hk]
      simp only [dictGet, if_neg hk]

/-! ### C2: the merge law of `update_data` / `update_learn_args` -/

/-- C2: for an existing predictor record, `update_data` and
`update_learn_args` merge the patch into the current mapping with patch
keys overriding existing keys; a non-dict current field is replaced by
the patch outright; and the two concrete merge laws of the spec hold:
`{a:1}` then `{b:2}` gives `{a:1, b:2}`, `{a:1}` then `{a:3}` gives
`{a:3}`. -/
theorem update_data_merge_spec (r : Predictor) (d patch : List (String × Int)) (k : String)
    (hnd : (patch.map Prod.fst).Nodup) :
    (r.data = PyVal.dict d →
      ModelStorage.update_data (Option.some r) patch =
        Except.ok { r with data := PyVal.dict (dictUpdate d patch) } ∧
      dictGet (dictUpdate d patch) k = optOr (dictGet patch k) (dictGet d k)) ∧
    ((∀ d0, r.data ≠ PyVal.dict d0) →
      ModelStorage.update_data (Option.some r) patch =
        Except.ok { r with data := PyVal.dict patch }) ∧
    (r.learn_args = PyVal.dict d →
      ModelStorage.update_learn_args (Option.some r) patch =
        Except.ok { r with learn_args := PyVal.dict (dictUpdate d patch) }) ∧
    ((∀ d0, r.learn_args ≠ PyVal.dict d0) →
      ModelStorage.update_learn_args (Option.some r) patch =
        Except.ok { r with learn_args := PyVal.dict patch }) ∧
    (r.data = PyVal.pynone →
      ∃ r1 r2 r3 r4,
        ModelStorage.update_data (Option.some r) [("a", (1 : Int))] = Except.ok r1 ∧
        ModelStorage.update_data (Option.some r1) [("b", 2)] = Except.ok r2 ∧
        r2.data = PyVal.dict [("a", 1), ("b", 2)] ∧
        ModelStorage.update_data (Option.some r) [("a", 1)] = Except.ok r3 ∧
        ModelStorage.update_data (Option.some r3) [("a", 3)] = Except.ok r4 ∧
        r4.data = PyVal.dict [("a", 3)]) := by
  refine ⟨?_, ?_, ?_, ?_, ?_⟩
  · intro h
    exact ⟨by simp only [ModelStorage.update_data, h], dictGet_dictUpdate patch d k hnd⟩
  · intro h
    cases hd : r.data with
    | pynone => simp only [ModelStorage.update_data, hd]
    | dict d0 => exact absurd hd (h d0)
    | str s0 => simp only [ModelStorage.update_data, hd]
  · intro h
    simp only [ModelStorage.update_learn_args, h]
  · intro h
    cases hd : r.learn_args with
    | pynone => simp only [ModelStorage.update_learn_args, hd]
    | dict d0 => exact absurd hd (h d0)
    | str s0 => simp only [ModelStorage.update_learn_args, hd]
  · intro h
    refine ⟨{ r with data := PyVal.dict [("a", 1)] },
      { r with data := PyVal.dict [("a", 1), ("b", 2)] },
      { r with data := PyVal.dict [("a", 1)] },
      { r with data := PyVal.dict [("a", 3)] }, ?_, ?_, rfl, ?_, ?_, rfl⟩
    · simp only [ModelStorage.update_data, h]
    · rfl
    · simp only [ModelStorage.update_data, h]
    · rfl

/-- A concrete fresh predictor row used by the witnesses. -/
def recA : Predictor :=
  { status := "generating", to_predict := "y", data := PyVal.pynone,
    learn_args := PyVal.pynone, dtype_dict := PyVal.pynone,
    training_phase_current := Option.none, training_phase_total := Option.none,
    training_phase_name := Option.none }

/-- Witness for C2 at the concrete row `recA` (whose `data` is `None`). -/
theorem update_data_merge_witness :
    ∃ r1 r2 r3 r4,
      ModelStorage.update_data (Option.some recA) [("a", (1 : Int))] = Except.ok r1 ∧
      ModelStorage.update_data (Option.some r1) [("b", 2)] = Except.ok r2 ∧
      r2.data = PyVal.dict [("a", 1), ("b", 2)] ∧
      ModelStorage.update_data (Option.some recA) [("a", 1)] = Except.ok r3 ∧
      ModelStorage.update_data (Option.some r3) [("a", 3)] = Except.ok r4 ∧
      r4.data = PyVal.dict [("a", 3)] :=
  (update_data_merge_spec recA [] [("b", 2)] "b" (by decide)).2.2.2.2 rfl

/-! ### C3: `status_set` replaces `data` wholesale -/

/-- C3: `status_set` always sets `status`, and a supplied `status_info`
replaces the entire `data` field with no merge: after prior
`data = {a:1}`, `status_set("complete", {x:1})` leaves exactly
`data = {x:1}` — looking up the old key `"a"` in the new dict gives
nothing. -/
theorem status_set_spec (r : Predictor) (s : String) (info : PyVal) :
    ModelStorage.status_set (Option.some r) s (Option.some info) =
      Except.ok { r with status := s, data := info } ∧
    ModelStorage.status_set (Option.some r) s Option.none =
      Except.ok { r with status := s } ∧
    (r.data = PyVal.dict [("a", 1)] →
      ModelStorage.status_set (Option.some r) "complete"
          (Option.some (PyVal.dict [("x", 1)])) =
        Except.ok { r with status := "complete", data := PyVal.dict [("x", 1)] } ∧
      dictGet [("x", (1 : Int))] "a" = Option.none) :=
  ⟨rfl, rfl, fun _ => ⟨rfl, rfl⟩⟩

/-- A concrete predictor row with `data = {a: 1}` used by witnesses. -/
def recB : Predictor :=
  { recA with status := "training", data := PyVal.dict [("a", 1)] }

/-- Witness for C3 at the concrete row `recB` (whose `data` is `{a:1}`). -/
theorem status_set_witness :
    ModelStorage.status_set (Option.some recB) "complete"
        (Option.some (PyVal.dict [("x", 1)])) =
      Except.ok { recB with status := "complete", data := PyVal.dict [("x", 1)] } ∧
    dictGet [("x", (1 : Int))] "a" = Option.none :=
  (status_set_spec recB "complete" (PyVal.dict [("x", 1)])).2.2 rfl

/-! ### C7: `update_connection_args` -/

/-- C7: `update_connection_args` raises the `KeyError`-class error
exactly when the integration row is absent; on an existing row it
replaces the whole `data` field by the given args and persists. -/
theorem update_connection_args_spec (rec : Option Integration) (args : List (String × Int)) :
    ((∃ e, HandlerStorage.update_connection_args rec args = Except.error e) ↔
      rec = Option.none) ∧
    (∀ r, rec = Option.some r →
      HandlerStorage.update_connection_args rec args =
        Except.ok { r with data := PyVal.dict args }) := by
  cases rec with
  | none =>
    refine ⟨⟨fun _ => rfl, fun _ => ⟨"Can't find integration", rfl⟩⟩, ?_⟩
    intro r hr
    exact absurd hr (by simp)
  | some r0 =>
    refine ⟨⟨?_, ?_⟩, ?_⟩
    · rintro ⟨e, he⟩
      exact absurd he (by simp [HandlerStorage.update_connection_args])
    · intro h
      exact absurd h (by simp)
    · intro r hr
      rw [Option.some.injEq] at hr
      subst hr
      rfl

/-- A concrete integration row used by witnesses. -/
def intA : Integration :=
  { name := "pg", data := PyVal.dict [("host", 1)] }

/-- Witness for C7 at the concrete integration row `intA`. -/
theorem update_connection_args_witness :
    HandlerStorage.update_connection_args (Option.some intA) [("port", 5)] =
      Except.ok { intA with data := PyVal.dict [("port", 5)] } :=
  (update_connection_args_spec (Option.some intA) [("port", 5)]).2 intA rfl

/-! ## HandlerStorage file-backend model

The external `FileStorage` backend is modelled by its observable state:
the local cache (name-to-content map) plus the traces of names pushed to
and pulled from remote storage. -/

structure FS where
  local_files : List (String × List Nat)
  pushes : List String
  pulls : List String
deriving DecidableEq

structure HandlerStorage where
  integration_id : Int
  is_temporal : Bool
  fs : FS
deriving DecidableEq

/-- `HandlerStorage.file_get`: `pull_path(name)` then `file_get(name)`
on the backend — the raw `name` is handed over unchanged. -/
def HandlerStorage.file_get (h : HandlerStorage) (name : String) :
    Option (List Nat) × HandlerStorage :=
  let h1 := { h with fs := { h.fs with pulls := h.fs.pulls ++ [name] } }
  (dictGet h1.fs.local_files name, h1)

/-- `HandlerStorage.file_set`: write locally under the raw `name`, then
`push_path(name)` unless the instance is temporal. -/
def HandlerStorage.file_set (h : HandlerStorage) (name : String) (content : List Nat) :
    HandlerStorage :=
  let fs1 := { h.fs with local_files := dictSet h.fs.local_files name content }
  if h.is_temporal then { h with fs := fs1 }
  else { h with fs := { fs1 with pushes := fs1.pushes ++ [name] } }

/-- `HandlerStorage.folder_get`: normalize the name with
`__convert_name`, pull it, and return the local path (modelled by the
normalized name). -/
def HandlerStorage.folder_get (h : HandlerStorage) (name : String) :
    String × HandlerStorage :=
  (convert_name name,
   { h with fs := { h.fs with pulls := h.fs.pulls ++ [convert_name name] } })

/-- `HandlerStorage.folder_sync`: return immediately when temporal, else
normalize the name and `push_path` it. -/
def HandlerStorage.folder_sync (h : HandlerStorage) (name : String) : HandlerStorage :=
  if h.is_temporal then h
  else { h with fs := { h.fs with pushes := h.fs.pushes ++ [convert_name name] } }

/-! ### C9: temporal instances never push -/

/-- C9: with `is_temporal` true, `file_set` writes locally and pushes
nothing and `folder_sync` is a no-op; with `is_temporal` false,
`file_set` writes then pushes the (raw) name and `folder_sync` pushes
the normalized name while leaving the local files alone. -/
theorem temporal_no_push (h : HandlerStorage) (name : String) (content : List Nat) :
    (h.is_temporal = true →
      (HandlerStorage.file_set h name content).fs.local_files =
        dictSet h.fs.local_files name content ∧
      (HandlerStorage.file_set h name content).fs.pushes = h.fs.pushes ∧
      HandlerStorage.folder_sync h name = h) ∧
    (h.is_temporal = false →
      (HandlerStorage.file_set h name content).fs.local_files =
        dictSet h.fs.local_files name content ∧
      (HandlerStorage.file_set h name content).fs.pushes = h.fs.pushes ++ [name] ∧
      (HandlerStorage.folder_sync h name).fs.pushes =
        h.fs.pushes ++ [convert_name name] ∧
      (HandlerStorage.folder_sync h name).fs.local_files = h.fs.local_files) := by
  constructor
  · intro ht
    simp only [HandlerStorage.file_set, HandlerStorage.folder_sync, ht, if_true]
    exact ⟨trivial, trivial, trivial⟩
  · intro ht
    simp only [HandlerStorage.file_set, HandlerStorage.folder_sync, ht,
      Bool.false_eq_true, if_false]
    exact ⟨trivial, trivial, trivial, trivial⟩

/-- A concrete temporal instance used by the witness. -/
def hsTemp : HandlerStorage :=
  { integration_id := 1, is_temporal := true,
    fs := { local_files := [], pushes := [], pulls := [] } }

/-- Witness for C9 at the concrete temporal instance `hsTemp`. -/
theorem temporal_no_push_witness :
    (HandlerStorage.file_set hsTemp "w" [7]).fs.local_files =
      dictSet hsTemp.fs.local_files "w" [7] ∧
    (HandlerStorage.file_set hsTemp "w" [7]).fs.pushes = hsTemp.fs.pushes ∧
    HandlerStorage.folder_sync hsTemp "w" = hsTemp :=
  (temporal_no_push hsTemp "w" [7]).1 rfl

/-! ### C6: file operations do not normalize the name -/

/-- A concrete non-temporal instance with an empty cache. -/
def hs0 : HandlerStorage :=
  { integration_id := 2, is_temporal := false,
    fs := { local_files := [], pushes := [], pulls := [] } }

/-- C6 (counterexample): the claim that `file_get` / `file_set`
normalize the key before it reaches the backend fails at the name
`"My File!"`: `file_set` stores (and `file_get` pulls) the raw name,
which differs from its normalization `"my_file_"`, and nothing is
stored under the normalized key. -/
theorem file_ops_no_normalization_counterexample :
    (HandlerStorage.file_set hs0 "My File!" [1]).fs.local_files = [("My File!", [1])] ∧
    convert_name "My File!" = "my_file_" ∧
    dictGet (HandlerStorage.file_set hs0 "My File!" [1]).fs.local_files "my_file_" =
      Option.none ∧
    (HandlerStorage.file_get hs0 "My File!").2.fs.pulls = ["My File!"] ∧
    "My File!" ≠ convert_name "My File!" :=
  ⟨rfl, by decide, rfl, rfl, by decide⟩

/-- C6 (amended): `HandlerStorage.file_get` and `file_set` pass the name
to the file backend unnormalized (raw pull, raw read, raw write and raw
push key), while `folder_get` and `folder_sync` apply `__convert_name`
before touching the backend. -/
theorem file_ops_raw_name (h : HandlerStorage) (name : String) (content : List Nat) :
    (HandlerStorage.file_get h name).2.fs.pulls = h.fs.pulls ++ [name] ∧
    (HandlerStorage.file_get h name).1 = dictGet h.fs.local_files name ∧
    (HandlerStorage.file_set h name content).fs.local_files =
      dictSet h.fs.local_files name content ∧
    (HandlerStorage.folder_get h name).1 = convert_name name ∧
    (HandlerStorage.folder_get h name).2.fs.pulls = h.fs.pulls ++ [convert_name name] ∧
    (HandlerStorage.folder_sync h name).fs.pushes =
      (if h.is_temporal then h.fs.pushes else h.fs.pushes ++ [convert_name name]) := by
  refine ⟨rfl, rfl, ?_, rfl, rfl, ?_⟩
  · cases ht : h.is_temporal <;>
      simp only [HandlerStorage.file_set, ht, Bool.false_eq_true, if_false, if_true]
  · cases ht : h.is_temporal <;>
      simp only [HandlerStorage.folder_sync, ht, Bool.false_eq_true, if_false, if_true]

/-! ## Folder contents, emptiness and the archive walk -/

/-- A directory entry as seen by `folder_path.iterdir()`. -/
inductive Entry where
  | file : String → Entry
  | dir : String → Entry
deriving DecidableEq

/-- `HandlerStorage.is_empty`, parameterized by the reserved
`SERVICE_FILES_NAMES` list (declared in the external `fs` module): walk
the entries of the local folder; a file whose name is a service file is
skipped; any other entry makes the result false. -/
def is_empty (svc : List String) : List Entry → Bool
  | [] => true
  | Entry.file n :: rest => if n ∈ svc then is_empty svc rest else false
  | Entry.dir _ :: _ => false

lemma is_empty_iff (svc : List String) (folder : List Entry) :
    is_empty svc folder = true ↔ ∀ e ∈ folder, ∃ n, e = Entry.file n ∧ n ∈ svc := by
  induction folder with
  | nil => simp [is_empty]
  | cons e rest ih =>
    cases e with
    | file n =>
      by_cases hn : n ∈ svc
      · rw [show is_empty svc (Entry.file n :: rest) = is_empty svc rest by
          simp [is_empty, hn]]
        rw [ih]
        constructor
        · intro h e he
          rcases List.mem_cons.mp he with rfl | he'
          · exact ⟨n, rfl, hn⟩
          · exact h e he'
        · intro h e he
          exact h e (List.mem_cons_of_mem _ he)
      · rw [show is_empty svc (Entry.file n :: rest) = false by simp [is_empty, hn]]
        constructor
        · intro h; cases h
        · intro h
          rcases h (Entry.file n) (List.mem_cons_self _ _) with ⟨m, hm, hmsvc⟩
          injection hm with hnm
          exact absurd (hnm ▸ hmsvc) hn
    | dir n =>
      rw [show is_empty svc (Entry.dir n :: rest) = false from rfl]
      constructor
      · intro h; cases h
      · intro h
        rcases h (Entry.dir n) (List.mem_cons_self _ _) with ⟨m, hm, _⟩
        cases hm

/-! ### C8: emptiness ignores exactly the service files -/

/-- C8: `is_empty` is true iff every entry of the local folder is a file
bearing a reserved service name; appending any entry that is not a
service file (a non-service file or a directory) makes it false. -/
theorem is_empty_spec (svc : List String) (folder : List Entry) :
    (is_empty svc folder = true ↔ ∀ e ∈ folder, ∃ n, e = Entry.file n ∧ n ∈ svc) ∧
    (∀ e, (∀ n, e = Entry.file n → n ∉ svc) → is_empty svc (folder ++ [e]) = false) := by
  refine ⟨is_empty_iff svc folder, ?_⟩
  intro e he
  cases hval : is_empty svc (folder ++ [e]) with
  | false => rfl
  | true =>
    rcases (is_empty_iff svc (folder ++ [e])).mp hval e (by simp) with ⟨n, hn, hnsvc⟩
    exact absurd hnsvc (he n hn)

/-- Witness for C8 with one service file `"fs.lock"` and one added
non-service file. -/
theorem is_empty_witness :
    (is_empty ["fs.lock"] [Entry.file "fs.lock"] = true ↔
      ∀ e ∈ [Entry.file "fs.lock"], ∃ n, e = Entry.file n ∧ n ∈ ["fs.lock"]) ∧
    is_empty ["fs.lock"] ([Entry.file "fs.lock"] ++ [Entry.file "model.bin"]) = false :=
  ⟨(is_empty_spec ["fs.lock"] [Entry.file "fs.lock"]).1,
   (is_empty_spec ["fs.lock"] [Entry.file "fs.lock"]).2 (Entry.file "model.bin")
     (by intro n hn; injection hn with h; rw [← h]; decide)⟩

/-! ### C1: archive export / import round trip

The recursive `os.walk` listing of the local folder is modelled flat:
each file is its relative path (as components, basename last) with its
content.  The deflate container built by `zipfile` is modelled by its
list of entries. -/

abbrev Folder := List (List String × List Nat)

/-- The basename of a relative path (`file_name` in the walk). -/
def basename (p : List String) : String := p.getLastD ""

/-- The entry a file contributes to the top-level `iterdir()`: the file
itself when at depth one, else its top-level directory. -/
def topEntry (p : List String) : Entry :=
  match p with
  | [n] => Entry.file n
  | n :: _ :: _ => Entry.dir n
  | [] => Entry.file ""

def topEntriesOf (folder : Folder) : List Entry :=
  folder.map (fun f => topEntry f.1)

/-- `HandlerStorage.export_files`: `None` when `is_empty()`; otherwise
the archive holding, relative to the folder root, every file of the
recursive walk whose basename is not a service file. -/
def export_files (svc : List String) (folder : Folder) : Option Folder :=
  if is_empty svc (topEntriesOf folder) then Option.none
  else Option.some (folder.filter (fun f => !(decide (basename f.1 ∈ svc))))

/-- `HandlerStorage.import_files`: extract every archive entry into the
local folder, overwriting an existing file at the same relative path and
adding the rest. -/
def import_files (folder : Folder) (archive : Folder) : Folder :=
  archive.foldl (fun acc e => dictSet acc e.1 e.2) folder

lemma dictSet_not_mem {α β : Type} [DecidableEq α] (d : List (α × β)) (k : α) (v : β) :
    k ∉ d.map Prod.fst → dictSet d k v = d ++ [(k, v)] := by
  induction d with
  | nil => intro _; rfl
  | cons p rest ih =>
    intro h
    simp only [List.map_cons, List.mem_cons, not_or] at h
    have hp : ¬(p.1 = k) := fun he => h.1 he.symm
    simp only [dictSet]
    rw [if_neg hp, ih h.2]
    rfl

lemma dictSet_mem_id {α β : Type} [DecidableEq α] (d : List (α × β)) (k : α) (v : β) :
    (k, v) ∈ d → (d.map Prod.fst).Nodup → dictSet d k v = d := by
  induction d with
  | nil => intro hmem _; cases hmem
  | cons p rest ih =>
    intro hmem hnd
    simp only [List.map_cons, List.nodup_cons] at hnd
    simp only [dictSet]
    by_cases hp : p.1 = k
    · rw [if_pos hp]
      rcases List.mem_cons.mp hmem with h | h
      · rw [← h]
      · exfalso
        exact hnd.1 (hp ▸ List.mem_map.mpr ⟨(k, v), h, rfl⟩)
    · rw [if_neg hp]
      rcases List.mem_cons.mp hmem with h | h
      · exact absurd (congrArg Prod.fst h.symm) hp
      · rw [ih h hnd.2]

lemma import_files_fresh (archive : Folder) :
    ∀ acc : Folder, (archive.map Prod.fst).Nodup →
    (∀ e ∈ archive, e.1 ∉ acc.map Prod.fst) →
    import_files acc archive = acc ++ archive := by
  induction archive with
  | nil => intro acc _ _; simp [import_files]
  | cons e rest ih =>
    intro acc hnd hdis
    simp only [List.map_cons, List.nodup_cons] at hnd
    show import_files (dictSet acc e.1 e.2) rest = acc ++ e :: rest
    rw [dictSet_not_mem acc e.1 e.2 (hdis e (List.mem_cons_self _ _))]
    rw [ih (acc ++ [(e.1, e.2)]) hnd.2 ?_]
    · simp
    · intro x hx
      simp only [List.map_append, List.mem_append, List.map_cons, List.map_nil,
        List.mem_singleton, not_or]
      refine ⟨hdis x (List.mem_cons_of_mem _ hx), fun hxe => ?_⟩
      exact hnd.1 (hxe ▸ List.mem_map.mpr ⟨x, hx, rfl⟩)

lemma import_files_subset (archive : Folder) :
    ∀ folder : Folder, (folder.map Prod.fst).Nodup →
    (∀ e ∈ archive, e ∈ folder) →
    import_files folder archive = folder := by
  induction archive with
  | nil => intro folder _ _; rfl
  | cons e rest ih =>
    intro folder hnd hsub
    show import_files (dictSet folder e.1 e.2) rest = folder
    rw [dictSet_mem_id folder e.1 e.2 (hsub e (List.mem_cons_self _ _)) hnd]
    exact ih folder hnd (fun x hx => hsub x (List.mem_cons_of_mem _ hx))

/-- C1: on a non-empty local folder (with distinct relative paths), the
export succeeds and the archive is exactly the set of non-service
files: every archive entry's basename is outside the service names,
importing the archive into an empty folder reproduces exactly the
non-service files with their paths and contents, and importing it back
into the original folder leaves it unchanged (service files are only
excluded from the archive, never rewritten). -/
theorem export_import_round_trip (svc : List String) (folder : Folder)
    (hnd : (folder.map Prod.fst).Nodup)
    (hne : is_empty svc (topEntriesOf folder) = false) :
    ∃ ar, export_files svc folder = Option.some ar ∧
      (∀ e ∈ ar, basename e.1 ∉ svc) ∧
      import_files [] ar = folder.filter (fun f => !(decide (basename f.1 ∈ svc))) ∧
      import_files folder ar = folder := by
  have hsubl : List.Sublist (folder.filter (fun f => !(decide (basename f.1 ∈ svc)))) folder :=
    List.filter_sublist folder
  have harnd : ((folder.filter (fun f => !(decide (basename f.1 ∈ svc)))).map
      Prod.fst).Nodup :=
    List.Nodup.sublist (List.Sublist.map Prod.fst hsubl) hnd
  refine ⟨folder.filter (fun f => !(decide (basename f.1 ∈ svc))), ?_, ?_, ?_, ?_⟩
  · simp [export_files, hne]
  · intro e he
    have hcond := List.of_mem_filter he
    simpa using hcond
  · rw [import_files_fresh _ [] harnd (by intro e _; simp)]
    rfl
  · exact import_files_subset _ folder hnd (fun e he => hsubl.mem he)

/-- A concrete folder with one service file, one top-level file and one
nested file. -/
def folderA : Folder :=
  [(["model.bin"], [1, 2]), (["fs.lock"], [0]), (["sub", "cfg"], [3])]

/-- Witness for C1 at the concrete folder `folderA` with service file
list `["fs.lock"]`. -/
theorem export_import_round_trip_witness :
    ∃ ar, export_files ["fs.lock"] folderA = Option.some ar ∧
      (∀ e ∈ ar, basename e.1 ∉ ["fs.lock"]) ∧
      import_files [] ar =
        folderA.filter (fun f => !(decide (basename f.1 ∈ ["fs.lock"]))) ∧
      import_files folderA ar = folderA :=
  export_import_round_trip ["fs.lock"] folderA (by decide) (by decide)

/-! ### C10: the unimplemented list/delete stubs

In the source these eight method bodies are a bare `...` (Python
`Ellipsis`): calling them evaluates no statement and returns `None`.
They are modelled as state-passing functions over the state each class
can touch; `Except.ok` records that no exception is raised. -/

/-- The state a `ModelStorage` instance can touch: the predictor row,
its files and its JSON values. -/
structure ModelWorld where
  record : Option Predictor
  files : List (String × List Nat)
  jsons : List (String × PyVal)
deriving DecidableEq

def ModelStorage.file_list (w : ModelWorld) :
    Except String (Option (List String)) × ModelWorld :=
  (Except.ok Option.none, w)

def ModelStorage.file_del (w : ModelWorld) (_name : String) :
    Except String (Option Unit) × ModelWorld :=
  (Except.ok Option.none, w)

def ModelStorage.json_list (w : ModelWorld) :
    Except String (Option (List String)) × ModelWorld :=
  (Except.ok Option.none, w)

def ModelStorage.json_del (w : ModelWorld) (_name : String) :
    Except String (Option Unit) × ModelWorld :=
  (Except.ok Option.none, w)

def HandlerStorage.file_list (h : HandlerStorage) :
    Except String (Option (List String)) × HandlerStorage :=
  (Except.ok Option.none, h)

def HandlerStorage.file_del (h : HandlerStorage) (_name : String) :
    Except String (Option Unit) × HandlerStorage :=
  (Except.ok Option.none, h)

def HandlerStorage.json_list (h : HandlerStorage) :
    Except String (Option (List String)) × HandlerStorage :=
  (Except.ok Option.none, h)

def HandlerStorage.json_del (h : HandlerStorage) (_name : String) :
    Except String (Option Unit) × HandlerStorage :=
  (Except.ok Option.none, h)

/-- C10: the stubbed list/delete operations on both facades return
`None` without raising and leave every record, file and JSON value
untouched. -/
theorem stub_methods_silent_noop (w : ModelWorld) (h : HandlerStorage) (name : String) :
    ModelStorage.file_list w = (Except.ok Option.none, w) ∧
    ModelStorage.file_del w name = (Except.ok Option.none, w) ∧
    ModelStorage.json_list w = (Except.ok Option.none, w) ∧
    ModelStorage.json_del w name = (Except.ok Option.none, w) ∧
    HandlerStorage.file_list h = (Except.ok Option.none, h) ∧
    HandlerStorage.file_del h name = (Except.ok Option.none, h) ∧
    HandlerStorage.json_list h = (Except.ok Option.none, h) ∧
    HandlerStorage.json_del h name = (Except.ok Option.none, h) :=
  ⟨rfl, rfl, rfl, rfl, rfl, rfl, rfl, rfl⟩

end ModelFS
